import Mathlib

/-!
Shallow embedding of `src/proc_module.c`: a proc-file module keeping an
append-only list of byte chunks (`struct proc_entry_list`) with a running
total size (`proc_entry_list_size`), read by absolute offset.

Modelling conventions:
* Bytes are `Nat`; a user buffer is a `List Nat`.
* `size_t` values are `Nat` (the arithmetic in the module never underflows
  on its guarded paths); `loff_t` and `ssize_t` are `Int`.
* The C comparison `off >= proc_entry_list_size` compares a signed `loff_t`
  against an unsigned `size_t`; under the usual arithmetic conversions on
  LP64 targets both operands convert to the 64-bit unsigned type, so the
  signed value is reinterpreted modulo 2^64.  `uconv` models exactly that
  conversion.
* The fallible kernel/user boundary copies (`copy_to_user`,
  `copy_from_user`) are modelled by an explicit `remaining_len` parameter:
  the number of bytes the single copy call of the operation fails to
  transfer (the C functions return this count, always at most the requested
  count, and transfer the prefix).
* Allocation outcomes (`kmalloc`, `kzalloc`, `kmemdup`) are explicit
  boolean parameters of `write_proc_module`.
* The read path never mutates the store, so `read_proc_module` returns only
  its `ssize_t` result, the updated `*offset`, and the bytes delivered to
  the user buffer; `write_proc_module` additionally returns the new store.
-/

namespace ProcModule

/-- `-EINVAL` magnitude: invalid argument. -/
def EINVAL : Int := 22

/-- `-ENOMEM` magnitude: allocation failure. -/
def ENOMEM : Int := 12

/-- `-EFAULT` magnitude: boundary transfer delivered nothing. -/
def EFAULT : Int := 14

/-- Number of values of a 64-bit machine word. -/
def U64 : Nat := 2 ^ 64

/-- C usual-arithmetic conversion of a signed 64-bit `loff_t` operand when
compared against a `size_t` operand on an LP64 target: the value is
reinterpreted modulo `2^64`. -/
def uconv (o : Int) : Nat := (o % (U64 : Int)).toNat

/-- `struct proc_entry_list`: one stored chunk, its byte buffer `buf` and
recorded size `buf_size`. -/
structure ProcEntryList where
  buf : List Nat
  buf_size : Nat
  deriving DecidableEq

/-- The module's global store: the chunk list rooted at
`proc_entry_list_head` (in insertion order) and the running
`proc_entry_list_size`. -/
structure ProcState where
  entries : List ProcEntryList
  proc_entry_list_size : Nat
  deriving DecidableEq

/-- The store right after `init_proc_module`: empty list, size zero. -/
def emptyState : ProcState := ⟨[], 0⟩

/-- Result of `read_proc_module`: the `ssize_t` return value, the final
`*offset`, and the bytes placed in the user buffer. -/
structure ReadResult where
  retval : Int
  offset : Int
  delivered : List Nat
  deriving DecidableEq

/-- The `list_for_each_entry` loop of `read_proc_module`: walk the entries
accumulating `pos`; on the entry whose `[pos, pos + buf_size)` range holds
`off`, compute `read_size`, attempt the `copy_to_user` (which fails to
transfer `remaining_len` of the requested bytes) and return; falling off
the end leaves the initial `retval = 0`. -/
def readScan (remaining_len length off : Nat) (offset : Int) :
    List ProcEntryList → Nat → ReadResult
  | [], _ => ⟨0, offset, []⟩
  | entry :: rest, pos =>
    let next_pos := pos + entry.buf_size
    if pos ≤ off ∧ off < next_pos then
      let read_size := if next_pos - off > length then length else next_pos - off
      if remaining_len = read_size then ⟨-EFAULT, offset, []⟩
      else
        let actual_size := read_size - remaining_len
        ⟨(actual_size : Int), offset + (actual_size : Int),
          ((entry.buf.drop (off - pos)).take read_size).take actual_size⟩
    else readScan remaining_len length off offset rest next_pos

/-- `read_proc_module`, translated branch for branch from the source.  The
first guard `length == 0 || off >= proc_entry_list_size` performs the
signed/unsigned comparison via `uconv`. -/
def read_proc_module (s : ProcState) (remaining_len : Nat) (length : Nat)
    (offset : Int) : ReadResult :=
  let off := offset
  if length = 0 ∨ s.proc_entry_list_size ≤ uconv off then ⟨0, offset, []⟩
  else if off < 0 then ⟨-EINVAL, offset, []⟩
  else readScan remaining_len length (uconv off) offset s.entries 0

/-- Result of `write_proc_module`: the `ssize_t` return value, the final
`*offset`, and the store after the call. -/
structure WriteResult where
  retval : Int
  offset : Int
  state : ProcState
  deriving DecidableEq

/-- `write_proc_module`, translated branch for branch from the source.
`usrbuf` holds the `length` user bytes; `entry_alloc_ok`, `tmp_alloc_ok`
and `dup_alloc_ok` are the outcomes of the `kmalloc`, `kzalloc` and
`kmemdup` calls; `remaining_len` is what `copy_from_user` fails to
transfer.  On success the transferred prefix becomes a new tail chunk of
size `actual_size = length - remaining_len` and both `*offset` and
`proc_entry_list_size` advance by `actual_size`. -/
def write_proc_module (s : ProcState) (usrbuf : List Nat) (offset : Int)
    (entry_alloc_ok tmp_alloc_ok dup_alloc_ok : Bool)
    (remaining_len : Nat) : WriteResult :=
  let length := usrbuf.length
  if length = 0 then ⟨0, offset, s⟩
  else if offset < 0 then ⟨-EINVAL, offset, s⟩
  else if entry_alloc_ok = false then ⟨-ENOMEM, offset, s⟩
  else if tmp_alloc_ok = false then ⟨-ENOMEM, offset, s⟩
  else if remaining_len = length then ⟨-EFAULT, offset, s⟩
  else
    let actual_size := length - remaining_len
    if dup_alloc_ok = false then ⟨-ENOMEM, offset, s⟩
    else
      ⟨(actual_size : Int), offset + (actual_size : Int),
        ⟨s.entries ++ [⟨usrbuf.take actual_size, actual_size⟩],
          s.proc_entry_list_size + actual_size⟩⟩

/-- Allocation sites of `write_proc_module`: the `kmalloc` of the list
entry, the `kzalloc` of the staging buffer, the `kmemdup` of the chunk
buffer. -/
inductive AllocSite
  | entry
  | tmp
  | buf
  deriving DecidableEq

/-- The allocation/free behaviour of one `write_proc_module` call, read off
the same branch structure: which sites were successfully allocated, which
were passed to `kfree` before returning, and which are retained (owned by
the store) on return. -/
structure AllocTrace where
  allocated : List AllocSite
  freed : List AllocSite
  retained : List AllocSite
  deriving DecidableEq

/-- Allocation trace of `write_proc_module`, branch for branch: the error
gotos `cpy_err`/`tmp_err` free the staging buffer and the entry; the
success path frees the staging buffer and hands the entry and chunk buffer
to the store. -/
def write_alloc_trace (usrbuf : List Nat) (offset : Int)
    (entry_alloc_ok tmp_alloc_ok dup_alloc_ok : Bool)
    (remaining_len : Nat) : AllocTrace :=
  let length := usrbuf.length
  if length = 0 then ⟨[], [], []⟩
  else if offset < 0 then ⟨[], [], []⟩
  else if entry_alloc_ok = false then ⟨[], [], []⟩
  else if tmp_alloc_ok = false then ⟨[.entry], [.entry], []⟩
  else if remaining_len = length then ⟨[.entry, .tmp], [.tmp, .entry], []⟩
  else if dup_alloc_ok = false then ⟨[.entry, .tmp], [.tmp, .entry], []⟩
  else ⟨[.entry, .tmp, .buf], [.tmp], [.entry, .buf]⟩

/-- Well-formedness of one chunk: the recorded size is the buffer length
(established by `kmemdup(tmp, actual_size)` / `buf_size = actual_size`). -/
def ProcEntryList.wf (e : ProcEntryList) : Prop := e.buf_size = e.buf.length

/-- Store invariant: every chunk is well-formed and
`proc_entry_list_size` is the sum of the chunk sizes. -/
def ProcState.wf (s : ProcState) : Prop :=
  (∀ e ∈ s.entries, e.wf) ∧
    s.proc_entry_list_size = (s.entries.map ProcEntryList.buf_size).sum

/-- Every stored chunk has a positive recorded size. -/
def chunksPositive (s : ProcState) : Prop := ∀ e ∈ s.entries, 1 ≤ e.buf_size

/-- The logical concatenation of all stored chunk buffers in list order. -/
def logicalConcat (s : ProcState) : List Nat :=
  (s.entries.map ProcEntryList.buf).flatten

/-- End offset of the chunk whose range contains `off`, scanning from
accumulated position `pos` (the fall-through value is the final position). -/
def chunkEndFrom (off : Nat) : List ProcEntryList → Nat → Nat
  | [], pos => pos
  | e :: rest, pos =>
    if off < pos + e.buf_size then pos + e.buf_size
    else chunkEndFrom off rest (pos + e.buf_size)

/-- End offset of the chunk containing `off` in store `s`. -/
def chunkEnd (s : ProcState) (off : Nat) : Nat := chunkEndFrom off s.entries 0

/-- The search skeleton of the read loop: the first entry whose
`[pos, pos + buf_size)` range contains `off`, together with its start
position. -/
def locateChunk (off : Nat) : List ProcEntryList → Nat → Option (ProcEntryList × Nat)
  | [], _ => none
  | e :: rest, pos =>
    if pos ≤ off ∧ off < pos + e.buf_size then some (e, pos)
    else locateChunk off rest (pos + e.buf_size)

/-- Iterated `write_proc_module` with offset 0 and all allocations
succeeding: each pair is the user buffer and the `copy_from_user`
shortfall of one append. -/
def applyAppends : ProcState → List (List Nat × Nat) → ProcState
  | s, [] => s
  | s, (d, r) :: rest =>
    applyAppends (write_proc_module s d 0 true true true r).state rest

/-- Total recorded size of a chunk list. -/
def sizeSum (es : List ProcEntryList) : Nat := (es.map ProcEntryList.buf_size).sum

/-- A concrete store used as a test vector: the chunks `"hello"` and
`"world!"` from the design document's end-to-end example. -/
def helloWorldState : ProcState :=
  ⟨[⟨[104, 101, 108, 108, 111], 5⟩, ⟨[119, 111, 114, 108, 100, 33], 6⟩], 11⟩

instance : DecidablePred ProcEntryList.wf := fun e =>
  decidable_of_iff (e.buf_size = e.buf.length) Iff.rfl

instance (s : ProcState) : Decidable s.wf :=
  decidable_of_iff
    ((∀ e ∈ s.entries, e.wf) ∧
      s.proc_entry_list_size = (s.entries.map ProcEntryList.buf_size).sum) Iff.rfl

instance (s : ProcState) : Decidable (chunksPositive s) :=
  decidable_of_iff (∀ e ∈ s.entries, 1 ≤ e.buf_size) Iff.rfl

theorem sizeSum_nil : sizeSum [] = 0 := rfl

theorem sizeSum_cons (e : ProcEntryList) (es : List ProcEntryList) :
    sizeSum (e :: es) = e.buf_size + sizeSum es := by
  simp [sizeSum]

theorem uconv_natCast (n : Nat) (h : n < U64) : uconv (n : Int) = n := by
  unfold uconv
  rw [show ((U64 : Nat) : Int) = ((2 ^ 64 : Nat) : Int) from rfl]
  rw [← Int.natCast_mod]
  simp [Nat.mod_eq_of_lt (by simpa [U64] using h)]

theorem chunkEndFrom_bounds (off : Nat) :
    ∀ (es : List ProcEntryList) (pos : Nat), pos ≤ off → off < pos + sizeSum es →
      off < chunkEndFrom off es pos ∧ chunkEndFrom off es pos ≤ pos + sizeSum es := by
  intro es
  induction es with
  | nil =>
    intro pos h1 h2
    rw [sizeSum_nil] at h2
    omega
  | cons e rest ih =>
    intro pos h1 h2
    rw [sizeSum_cons] at h2
    by_cases hc : off < pos + e.buf_size
    · rw [chunkEndFrom, if_pos hc, sizeSum_cons]
      omega
    · rw [chunkEndFrom, if_neg hc, sizeSum_cons]
      have h3 := ih (pos + e.buf_size) (by omega) (by omega)
      omega

/-- Master description of the read loop: starting the scan at accumulated
position `pos ≤ off` with `off` inside the remaining entries, the loop
finds the covering chunk, requests `read_size = min length (chunk end -
off)` bytes, and either faults (`remaining_len` equals `read_size`) or
returns the delivered prefix of the requested slice of the logical
concatenation. -/
theorem readScan_eq (len r : Nat) (offset : Int) :
    ∀ (es : List ProcEntryList) (pos off : Nat),
      (∀ e ∈ es, e.wf) → pos ≤ off → off < pos + sizeSum es → 0 < len →
      readScan r len off offset es pos =
        (if r = min len (chunkEndFrom off es pos - off) then ⟨-EFAULT, offset, []⟩
        else
          ⟨((min len (chunkEndFrom off es pos - off) - r : Nat) : Int),
            offset + ((min len (chunkEndFrom off es pos - off) - r : Nat) : Int),
            (((es.map ProcEntryList.buf).flatten.drop (off - pos)).take
                (min len (chunkEndFrom off es pos - off))).take
              (min len (chunkEndFrom off es pos - off) - r)⟩) := by
  intro es
  induction es with
  | nil =>
    intro pos off _ h1 h2 _
    rw [sizeSum_nil] at h2
    omega
  | cons e rest ih =>
    intro pos off hwf h1 h2 hlen
    have hew : e.buf_size = e.buf.length := hwf e (List.mem_cons_self e rest)
    rw [sizeSum_cons] at h2
    by_cases hc : off < pos + e.buf_size
    · have hcond : pos ≤ off ∧ off < pos + e.buf_size := ⟨h1, hc⟩
      have hce : chunkEndFrom off (e :: rest) pos = pos + e.buf_size := by
        rw [chunkEndFrom, if_pos hc]
      have hrs : (if pos + e.buf_size - off > len then len else pos + e.buf_size - off)
          = min len (pos + e.buf_size - off) := by
        split <;> omega
      have hdrop : ((e :: rest).map ProcEntryList.buf).flatten.drop (off - pos)
          = e.buf.drop (off - pos) ++ (rest.map ProcEntryList.buf).flatten := by
        rw [List.map_cons, List.flatten_cons]
        exact List.drop_append_of_le_length (by omega)
      have htake : (e.buf.drop (off - pos) ++ (rest.map ProcEntryList.buf).flatten).take
            (min len (pos + e.buf_size - off))
          = (e.buf.drop (off - pos)).take (min len (pos + e.buf_size - off)) := by
        apply List.take_append_of_le_length
        rw [List.length_drop]
        omega
      rw [readScan, if_pos hcond, hce, hrs, hdrop, htake]
    · have hcond : ¬(pos ≤ off ∧ off < pos + e.buf_size) := by omega
      have hce : chunkEndFrom off (e :: rest) pos
          = chunkEndFrom off rest (pos + e.buf_size) := by
        rw [chunkEndFrom, if_neg hc]
      have hdrop : ((e :: rest).map ProcEntryList.buf).flatten.drop (off - pos)
          = (rest.map ProcEntryList.buf).flatten.drop (off - (pos + e.buf_size)) := by
        rw [List.map_cons, List.flatten_cons,
          show off - pos = e.buf.length + (off - (pos + e.buf_size)) by omega,
          List.drop_append]
      rw [readScan, if_neg hcond, hce, hdrop]
      exact ih (pos + e.buf_size) off (fun x hx => hwf x (List.mem_cons_of_mem e hx))
        (by omega) (by omega) hlen

/-- Shape of a fully successful `write_proc_module` call: the transferred
prefix becomes the new tail chunk, `*offset` and the size advance by
`actual_size = length - remaining_len`. -/
theorem write_success (s : ProcState) (usrbuf : List Nat) (offset : Int) (r : Nat)
    (hoff : 0 ≤ offset) (hr : r < usrbuf.length) :
    write_proc_module s usrbuf offset true true true r =
      ⟨((usrbuf.length - r : Nat) : Int), offset + ((usrbuf.length - r : Nat) : Int),
        ⟨s.entries ++ [⟨usrbuf.take (usrbuf.length - r), usrbuf.length - r⟩],
          s.proc_entry_list_size + (usrbuf.length - r)⟩⟩ := by
  simp only [write_proc_module]
  rw [if_neg (by omega), if_neg (by omega), if_neg (by simp), if_neg (by simp),
    if_neg (by omega), if_neg (by simp)]

/-- `write_proc_module` preserves the store invariant, whatever the
allocation outcomes and the transfer shortfall. -/
theorem write_state_wf (s : ProcState) (usrbuf : List Nat) (offset : Int)
    (e t d : Bool) (r : Nat) (hs : s.wf) :
    (write_proc_module s usrbuf offset e t d r).state.wf := by
  simp only [write_proc_module]
  split_ifs <;> try exact hs
  constructor
  · intro x hx
    rcases List.mem_append.mp hx with hx | hx
    · exact hs.1 x hx
    · rw [List.mem_singleton.mp hx]
      show usrbuf.length - r = (usrbuf.take (usrbuf.length - r)).length
      rw [List.length_take]
      omega
  · simp [List.map_append, List.sum_append, hs.2]

/-- Iterating successful appends extends the entry list in order and adds
the transferred lengths to the size counter. -/
theorem applyAppends_spec :
    ∀ (as : List (List Nat × Nat)) (s : ProcState),
      (∀ p ∈ as, p.2 < p.1.length) →
      (applyAppends s as).entries
          = s.entries ++ as.map (fun p => ⟨p.1.take (p.1.length - p.2), p.1.length - p.2⟩) ∧
      (applyAppends s as).proc_entry_list_size
          = s.proc_entry_list_size + (as.map (fun p => p.1.length - p.2)).sum := by
  intro as
  induction as with
  | nil =>
    intro s _
    simp [applyAppends]
  | cons p rest ih =>
    intro s h
    obtain ⟨d, r⟩ := p
    have hdr : r < d.length := h (d, r) (List.mem_cons_self _ _)
    rw [applyAppends, write_success s d 0 r (by omega) hdr]
    have h2 := ih ⟨s.entries ++ [⟨d.take (d.length - r), d.length - r⟩],
        s.proc_entry_list_size + (d.length - r)⟩
      (fun q hq => h q (List.mem_cons_of_mem _ hq))
    simp only [List.map_cons, List.sum_cons]
    constructor
    · rw [h2.1]
      simp [List.append_assoc]
    · rw [h2.2]
      simp [add_assoc]

/-- The read loop's search always succeeds when `off` lies inside the
remaining entries; the found chunk covers `off` and its end is the
`chunkEndFrom` value. -/
theorem locateChunk_some (off : Nat) :
    ∀ (es : List ProcEntryList) (pos : Nat), pos ≤ off → off < pos + sizeSum es →
      ∃ e q, locateChunk off es pos = some (e, q) ∧ q ≤ off ∧ off < q + e.buf_size ∧
        q + e.buf_size = chunkEndFrom off es pos := by
  intro es
  induction es with
  | nil =>
    intro pos h1 h2
    rw [sizeSum_nil] at h2
    omega
  | cons e rest ih =>
    intro pos h1 h2
    rw [sizeSum_cons] at h2
    by_cases hc : off < pos + e.buf_size
    · refine ⟨e, pos, ?_, h1, hc, ?_⟩
      · rw [locateChunk, if_pos ⟨h1, hc⟩]
      · rw [chunkEndFrom, if_pos hc]
    · obtain ⟨e2, q, hq, hq1, hq2, hq3⟩ := ih (pos + e.buf_size) (by omega) (by omega)
      refine ⟨e2, q, ?_, hq1, hq2, ?_⟩
      · rw [locateChunk, if_neg (by omega), hq]
      · rw [chunkEndFrom, if_neg hc, hq3]

/-- Reduction of an in-range `read_proc_module` call to the description of
its scan: with a well-formed store, `0 ≤ off < total_size` and a positive
`length`, the call either faults (the transfer delivered nothing) or
returns the delivered prefix of the requested single-chunk slice. -/
theorem read_proc_module_eq_scan (s : ProcState) (hwf : s.wf) (off len r : Nat)
    (hlen : 0 < len) (hoff : off < s.proc_entry_list_size) (hb : off < 2 ^ 63) :
    read_proc_module s r len (off : Int) =
      (if r = min len (chunkEnd s off - off) then ⟨-EFAULT, (off : Int), []⟩
      else
        ⟨((min len (chunkEnd s off - off) - r : Nat) : Int),
          (off : Int) + ((min len (chunkEnd s off - off) - r : Nat) : Int),
          (((logicalConcat s).drop off).take (min len (chunkEnd s off - off))).take
            (min len (chunkEnd s off - off) - r)⟩) := by
  have hu : uconv ((off : Nat) : Int) = off :=
    uconv_natCast off (lt_trans hb (by norm_num [U64]))
  have hsz : s.proc_entry_list_size = sizeSum s.entries := hwf.2
  simp only [read_proc_module, hu]
  rw [if_neg (by omega), if_neg (by omega),
    readScan_eq len r (off : Int) s.entries 0 off hwf.1 (Nat.zero_le off) (by omega) hlen]
  simp only [chunkEnd, logicalConcat, Nat.sub_zero]

/-- Claim C1: for every well-formed store and every request with
`0 ≤ start_offset < total_size` and `max_length > 0`, a read with a full
boundary transfer returns exactly the slice of the logical concatenation
of all appended chunks that begins at `start_offset` and has length
`min(max_length, chunk_end - start_offset)` for the chunk containing
`start_offset`; no byte of a later chunk is included. -/
theorem read_slice_correct (s : ProcState) (hwf : s.wf) (off len : Nat)
    (hlen : 0 < len) (hoff : off < s.proc_entry_list_size) (hb : off < 2 ^ 63) :
    read_proc_module s 0 len (off : Int) =
      ⟨((min len (chunkEnd s off - off) : Nat) : Int),
        (off : Int) + ((min len (chunkEnd s off - off) : Nat) : Int),
        ((logicalConcat s).drop off).take (min len (chunkEnd s off - off))⟩ := by
  have hsz : s.proc_entry_list_size = sizeSum s.entries := hwf.2
  have hce := chunkEndFrom_bounds off s.entries 0 (Nat.zero_le off) (by omega)
  have hce1 : off < chunkEnd s off := hce.1
  rw [read_proc_module_eq_scan s hwf off len 0 hlen hoff hb, if_neg (by omega)]
  simp [List.take_take]

/-- Witness for C1 on the design document's example store: reading 10
bytes from offset 0 yields exactly `"hello"` and stops at the first chunk
boundary. -/
theorem read_slice_correct_witness :
    read_proc_module helloWorldState 0 10 ((0 : Nat) : Int) =
      ⟨5, 5, [104, 101, 108, 108, 111]⟩ :=
  (read_slice_correct helloWorldState (by decide) 0 10 (by decide) (by decide)
    (by decide)).trans (by decide)

/-- Claim C2 (code bug): a negative `start_offset` with non-zero length is
supposed to fail with `-EINVAL` in both operations, but in
`read_proc_module` the guard `off >= proc_entry_list_size` compares the
signed `loff_t` with the unsigned `size_t`, so a negative offset converts
to a huge unsigned value, the empty-success branch fires, and the
`off < 0` branch is unreachable: the read returns 0.  The write-side check
does return `-EINVAL` and leaves the store unchanged. -/
theorem read_negative_offset_bug :
    read_proc_module ⟨[⟨[1, 2, 3], 3⟩], 3⟩ 0 2 (-1) = ⟨0, -1, []⟩ ∧
    write_proc_module ⟨[⟨[1, 2, 3], 3⟩], 3⟩ [7] (-1) true true true 0 =
      ⟨-EINVAL, -1, ⟨[⟨[1, 2, 3], 3⟩], 3⟩⟩ := by
  constructor <;> decide

/-- Claim C3: after any finite sequence of successful appends starting
from the empty store, `proc_entry_list_size` is the sum of the transferred
lengths and the entry list holds exactly those chunks in append order;
moreover every write preserves the invariant that the size counter is the
sum of the chunk sizes. -/
theorem appends_total_size_and_order (as : List (List Nat × Nat))
    (h : ∀ p ∈ as, p.2 < p.1.length) :
    (applyAppends emptyState as).entries
        = as.map (fun p => ⟨p.1.take (p.1.length - p.2), p.1.length - p.2⟩) ∧
    (applyAppends emptyState as).proc_entry_list_size
        = (as.map (fun p => p.1.length - p.2)).sum ∧
    (∀ (s : ProcState) (usrbuf : List Nat) (offset : Int) (e t d : Bool) (r : Nat),
        s.wf → (write_proc_module s usrbuf offset e t d r).state.wf) := by
  have h2 := applyAppends_spec as emptyState h
  refine ⟨?_, ?_, fun s u o e t d r hs => write_state_wf s u o e t d r hs⟩
  · simpa [emptyState] using h2.1
  · simpa [emptyState] using h2.2

/-- Witness for C3: appending `"he"` then `"w"` (full transfers) gives a
store with exactly those two chunks in order and total size 3. -/
theorem appends_total_size_and_order_witness :
    (applyAppends emptyState [([104, 101], 0), ([119], 0)]).entries
        = [⟨[104, 101], 2⟩, ⟨[119], 1⟩] ∧
    (applyAppends emptyState [([104, 101], 0), ([119], 0)]).proc_entry_list_size = 3 := by
  have h := appends_total_size_and_order [([104, 101], 0), ([119], 0)] (by decide)
  exact ⟨h.1.trans (by decide), h.2.1.trans (by decide)⟩

/-- Claim C4: for every non-negative offset, the store produced by a write
does not depend on the offset value, and a successful write links the new
chunk at the tail of the entry list. -/
theorem write_offset_not_used_for_placement :
    (∀ (s : ProcState) (usrbuf : List Nat) (e t d : Bool) (r : Nat) (off1 off2 : Int),
        0 ≤ off1 → 0 ≤ off2 →
        (write_proc_module s usrbuf off1 e t d r).state
          = (write_proc_module s usrbuf off2 e t d r).state) ∧
    (∀ (s : ProcState) (usrbuf : List Nat) (offset : Int) (r : Nat),
        0 ≤ offset → r < usrbuf.length →
        (write_proc_module s usrbuf offset true true true r).state.entries
          = s.entries ++ [⟨usrbuf.take (usrbuf.length - r), usrbuf.length - r⟩]) := by
  constructor
  · intro s u e t d r off1 off2 h1 h2
    simp only [write_proc_module]
    split_ifs <;> first | rfl | omega
  · intro s u offset r h1 h2
    rw [write_success s u offset r h1 h2]

/-- Witness for C4: writing `[7, 8]` at offset 5 and at offset 0 produces
the same store, and the chunk lands at the tail. -/
theorem write_offset_not_used_for_placement_witness :
    (write_proc_module emptyState [7, 8] 5 true true true 0).state
        = (write_proc_module emptyState [7, 8] 0 true true true 0).state ∧
    (write_proc_module emptyState [7, 8] 5 true true true 0).state.entries
        = [⟨[7, 8], 2⟩] := by
  refine ⟨write_offset_not_used_for_placement.1 emptyState [7, 8] true true true 0 5 0
    (by decide) (by decide), ?_⟩
  exact (write_offset_not_used_for_placement.2 emptyState [7, 8] 5 0 (by decide)
    (by decide)).trans (by decide)

/-- Claim C5: whenever `write_proc_module` fails (negative return), the
store and the caller's offset are unchanged, every allocation made before
the failure has been freed, and nothing is retained. -/
theorem write_failure_leaves_store_unchanged (s : ProcState) (usrbuf : List Nat)
    (offset : Int) (e t d : Bool) (r : Nat)
    (hfail : (write_proc_module s usrbuf offset e t d r).retval < 0) :
    (write_proc_module s usrbuf offset e t d r).state = s ∧
    (write_proc_module s usrbuf offset e t d r).offset = offset ∧
    (write_alloc_trace usrbuf offset e t d r).freed.Perm
      (write_alloc_trace usrbuf offset e t d r).allocated ∧
    (write_alloc_trace usrbuf offset e t d r).retained = [] := by
  simp only [write_proc_module, write_alloc_trace] at hfail ⊢
  split_ifs at hfail ⊢ <;>
    first
      | exact ⟨rfl, rfl, by decide, rfl⟩
      | exact absurd hfail (by decide)
      | exact absurd hfail (by simp)

/-- Witness for C5: a failed entry allocation returns `-ENOMEM`, leaves
the example store untouched and frees nothing because nothing was
allocated. -/
theorem write_failure_leaves_store_unchanged_witness :
    (write_proc_module helloWorldState [9] 0 false true true 0).state = helloWorldState ∧
    (write_proc_module helloWorldState [9] 0 false true true 0).offset = 0 ∧
    (write_alloc_trace [9] 0 false true true 0).freed.Perm
      (write_alloc_trace [9] 0 false true true 0).allocated ∧
    (write_alloc_trace [9] 0 false true true 0).retained = [] :=
  write_failure_leaves_store_unchanged helloWorldState [9] 0 false true true 0 (by decide)

/-- Claim C6: on an in-range read, with `to_copy = min max_length
(chunk_end - start_offset)`, a transfer shortfall equal to `to_copy`
(zero bytes delivered) fails with `-EFAULT` and leaves the cursor alone,
while a partial shortfall `0 < remaining < to_copy` succeeds with the
delivered count and advances the cursor by exactly that count. -/
theorem read_partial_and_zero_transfer (s : ProcState) (hwf : s.wf) (off len r : Nat)
    (hlen : 0 < len) (hoff : off < s.proc_entry_list_size) (hb : off < 2 ^ 63) :
    (r = min len (chunkEnd s off - off) →
      read_proc_module s r len (off : Int) = ⟨-EFAULT, (off : Int), []⟩) ∧
    (0 < r → r < min len (chunkEnd s off - off) →
      (read_proc_module s r len (off : Int)).retval
          = ((min len (chunkEnd s off - off) - r : Nat) : Int) ∧
      (read_proc_module s r len (off : Int)).offset
          = (off : Int) + ((min len (chunkEnd s off - off) - r : Nat) : Int)) := by
  have h := read_proc_module_eq_scan s hwf off len r hlen hoff hb
  constructor
  · intro he
    rw [h, if_pos he]
  · intro h1 h2
    rw [h, if_neg (by omega)]
    exact ⟨rfl, rfl⟩

/-- Witness for C6 on the example store at offset 2 (`to_copy = 3`): a
shortfall of 3 faults without moving the cursor; a shortfall of 1 delivers
2 bytes and advances the cursor to 4. -/
theorem read_partial_and_zero_transfer_witness :
    read_proc_module helloWorldState 3 10 ((2 : Nat) : Int) = ⟨-EFAULT, 2, []⟩ ∧
    (read_proc_module helloWorldState 1 10 ((2 : Nat) : Int)).retval = 2 ∧
    (read_proc_module helloWorldState 1 10 ((2 : Nat) : Int)).offset = 4 := by
  have h3 := read_partial_and_zero_transfer helloWorldState (by decide) 2 10 3
    (by decide) (by decide) (by decide)
  have h1 := read_partial_and_zero_transfer helloWorldState (by decide) 2 10 1
    (by decide) (by decide) (by decide)
  refine ⟨(h3.1 (by decide)).trans (by decide), ?_, ?_⟩
  · exact ((h1.2 (by decide) (by decide)).1).trans (by decide)
  · exact ((h1.2 (by decide) (by decide)).2).trans (by decide)

/-- Claim C7: a read with `max_length = 0`, or with a non-negative
`start_offset` at or past `total_size`, returns 0 with an empty result and
an unchanged cursor (and the read path never mutates the store). -/
theorem read_empty_cases (s : ProcState) (off len r : Nat) (hb : off < 2 ^ 63)
    (h : len = 0 ∨ s.proc_entry_list_size ≤ off) :
    read_proc_module s r len (off : Int) = ⟨0, (off : Int), []⟩ := by
  have hu : uconv ((off : Nat) : Int) = off :=
    uconv_natCast off (lt_trans hb (by norm_num [U64]))
  simp only [read_proc_module, hu]
  rw [if_pos h]

/-- Witness for C7: reading 5 bytes at offset 11 (= `total_size`) of the
example store returns empty success. -/
theorem read_empty_cases_witness :
    read_proc_module helloWorldState 0 5 ((11 : Nat) : Int) = ⟨0, 11, []⟩ :=
  (read_empty_cases helloWorldState 11 5 0 (by decide) (by decide)).trans (by decide)

/-- Claim C8: the empty store has no zero-sized chunk, and every write
(under the `copy_from_user` contract `remaining_len ≤ length`) preserves
the invariant that every stored chunk has `buf_size ≥ 1`: no code path
links a chunk of transferred length zero. -/
theorem chunks_positive_invariant :
    chunksPositive emptyState ∧
    ∀ (s : ProcState) (usrbuf : List Nat) (offset : Int) (e t d : Bool) (r : Nat),
      r ≤ usrbuf.length → chunksPositive s →
      chunksPositive (write_proc_module s usrbuf offset e t d r).state := by
  refine ⟨by decide, ?_⟩
  intro s u offset e t d r hr hpos
  simp only [write_proc_module]
  split_ifs with h1 h2 h3 h4 h5 h6 <;> try exact hpos
  intro x hx
  rcases List.mem_append.mp hx with hx | hx
  · exact hpos x hx
  · rw [List.mem_singleton.mp hx]
    show 1 ≤ u.length - r
    omega

/-- Witness for C8: appending one byte to the example store keeps all
chunk sizes positive. -/
theorem chunks_positive_invariant_witness :
    chunksPositive (write_proc_module helloWorldState [9] 0 true true true 0).state :=
  chunks_positive_invariant.2 helloWorldState [9] 0 true true true 0 (by decide) (by decide)

/-- Claim C9: a zero-length request returns 0 (empty success) for every
offset value, negative ones included: in both operations the zero-length
check fires before the negative-offset check. -/
theorem zero_length_precedes_negative_offset_check :
    (∀ (s : ProcState) (r : Nat) (offset : Int),
        read_proc_module s r 0 offset = ⟨0, offset, []⟩) ∧
    (∀ (s : ProcState) (offset : Int) (e t d : Bool) (r : Nat),
        write_proc_module s [] offset e t d r = ⟨0, offset, s⟩) := by
  constructor
  · intro s r offset
    simp [read_proc_module]
  · intro s offset e t d r
    simp [write_proc_module]

/-- Claim C10: under the store invariant, a read that enters the scan with
`0 ≤ start_offset < total_size` always finds the chunk covering the
offset (the fall-through past the loop is unreachable), and the in-chunk
index plus the copy count never exceeds the chunk's `buf_size`: every
byte access stays inside the found chunk's buffer. -/
theorem read_scan_always_finds_chunk (s : ProcState) (hwf : s.wf) (off : Nat)
    (hoff : off < s.proc_entry_list_size) :
    ∃ e pos, locateChunk off s.entries 0 = some (e, pos) ∧
      pos ≤ off ∧ off < pos + e.buf_size ∧ pos + e.buf_size = chunkEnd s off ∧
      ∀ len, (off - pos) + min len (pos + e.buf_size - off) ≤ e.buf_size := by
  have hsz : s.proc_entry_list_size = sizeSum s.entries := hwf.2
  obtain ⟨e, q, h1, h2, h3, h4⟩ :=
    locateChunk_some off s.entries 0 (Nat.zero_le off) (by omega)
  refine ⟨e, q, h1, h2, h3, h4, ?_⟩
  intro len
  have hm := min_le_right len (q + e.buf_size - off)
  omega

/-- Witness for C10: offset 7 of the example store lies in the second
chunk, which starts at 5 and ends at 11. -/
theorem read_scan_always_finds_chunk_witness :
    ∃ e pos, locateChunk 7 helloWorldState.entries 0 = some (e, pos) ∧
      pos ≤ 7 ∧ 7 < pos + e.buf_size ∧ pos + e.buf_size = chunkEnd helloWorldState 7 ∧
      ∀ len, (7 - pos) + min len (pos + e.buf_size - 7) ≤ e.buf_size :=
  read_scan_always_finds_chunk helloWorldState (by decide) 7 (by decide)

end ProcModule
